import Mathlib

/-!
Shallow embedding of the OpenSanctions API client's relationship-resolution
engine (`OpenSanctionsApiClient` in the repository's api-client module):
`getAdjacent`, the reference extractors (`extractEntityId`,
`propertyContainsId`, `extractFirstTarget`, `extractNestedEntities`) and the
full `fetchWithRelationships` pipeline (merge, caption seeding,
classification, caption resolution, bucket population).

Modelling conventions:
- JavaScript string truthiness: the empty string is falsy, so an absent or
  `undefined` string field and the empty-string field behave identically at
  every use site in the source (every access is guarded by a truthiness
  check or compared with `===` after such a check).  Entity string fields
  are therefore plain `String` with `""` meaning absent/falsy.
- The JS `Map` is used only through `get`/`has`/`set`, never iterated, so it
  is modelled extensionally as a function `String → Option String`;
  `Map.set` is function update (which, like the source, overwrites).
- The JS `Set` of unresolved identifiers is iterated in insertion order, so
  it is modelled as a duplicate-free list with append-if-absent insertion.
- Network effects are inputs: the result of `getEntity` for the primary
  entity, the result of `getAdjacent`, and a per-identifier fetch oracle
  `String → Option Entity` (`none` models a thrown/failed follow-up fetch)
  for the resolution loop.
-/

namespace OSPlugin

/-! ### JS value model for `getAdjacent` response-shape handling -/

/-- A JavaScript/JSON runtime value, as seen by `getAdjacent` when it
inspects the adjacency response's shape. -/
inductive JSVal where
  | vstr (s : String)
  | vnum (n : Int)
  | vbool (b : Bool)
  | vnull
  | vundefined
  | varr (elems : List JSVal)
  | vobj (fields : List (String × JSVal))
deriving Repr

/-- JS truthiness: `""`, `0`, `false`, `null`, `undefined` are falsy;
arrays and objects (even empty) are truthy. -/
def JSVal.truthy : JSVal → Bool
  | .vstr s => s ≠ ""
  | .vnum n => n ≠ 0
  | .vbool b => b
  | .vnull => false
  | .vundefined => false
  | .varr _ => true
  | .vobj _ => true

/-- `typeof v === 'object'` in JS: objects, arrays and `null`. -/
def JSVal.isObjectType : JSVal → Bool
  | .vobj _ => true
  | .varr _ => true
  | .vnull => true
  | _ => false

/-- `Array.isArray`. -/
def JSVal.isArray : JSVal → Bool
  | .varr _ => true
  | _ => false

/-- `Object.values`: field values of an object in insertion order; for an
array, its elements.  (Only applied to truthy object-typed values in the
source.) -/
def JSVal.objValues : JSVal → List JSVal
  | .vobj fields => fields.map Prod.snd
  | .varr elems => elems
  | _ => []

/-- Property access `v.k`.  Accessing a property of `null` or `undefined`
throws a `TypeError`, modelled as `Except.error`; on every other value a
missing property reads as `undefined`. -/
def JSVal.member : JSVal → String → Except Unit JSVal
  | .vnull, _ => .error ()
  | .vundefined, _ => .error ()
  | .vobj fields, k => .ok ((fields.lookup k).getD .vundefined)
  | _, _ => .ok .vundefined

/-- Optional-chaining access `v?.k`: `null`/`undefined` yield `undefined`
instead of throwing. -/
def JSVal.optMember : JSVal → String → JSVal
  | .vnull, _ => .vundefined
  | .vundefined, _ => .vundefined
  | .vobj fields, k => (fields.lookup k).getD .vundefined
  | _, _ => .vundefined

/-- The body of `getAdjacent`'s `try` block after the request succeeded with
response value `resp` (the part that can itself throw, e.g. member access on
a `null` response). -/
def adjacentFromResponse (resp : JSVal) : Except Unit JSVal := do
  let adjacentField ← resp.member "adjacent"
  if adjacentField.truthy && adjacentField.isObjectType then
    -- grouped shape: concatenate every group's `results` array
    let allEntities := adjacentField.objValues.foldl
      (fun acc propResults =>
        match propResults.optMember "results" with
        | .varr results => acc ++ results
        | _ => acc) []
    return .varr allEntities
  else
    if resp.isArray then
      return resp
    else
      let results ← resp.member "results"
      return (if results.truthy then results else .varr [])

/-- `getAdjacent`: the request outcome is the input (`Except.error` models a
failed fetch / thrown request); every exception inside the `try` is caught
and turned into the empty array. -/
def getAdjacent (fetchResult : Except Unit JSVal) : JSVal :=
  match fetchResult with
  | .error _ => .varr []
  | .ok resp =>
    match adjacentFromResponse resp with
    | .error _ => .varr []
    | .ok v => v

/-! ### Entity and property-value model -/

/-- A runtime property-bag value: a bare identifier string, an embedded
object (with possibly-absent `id`/`caption`/`schema` string fields, `""`
meaning absent/falsy, and its own property bag), or any other value
(`null`, number, boolean, array, …) from which the extractors derive
nothing — all such values take the same path through every guard in the
source (`typeof v === 'string'` false and `v && typeof v === 'object' &&
v.id` false). -/
inductive PropVal where
  | pstr (s : String)
  | pobj (id caption schema : String) (properties : List (String × List PropVal))
  | pbad
deriving Repr

/-- An entity / relationship record as used by the pipeline:
`id`, `caption`, `schema`, the property bag, and dataset tags. -/
structure Entity where
  id : String
  caption : String
  schema : String
  properties : List (String × List PropVal)
  datasets : List String
deriving Repr

/-- Property-bag lookup `rel.properties.<key>`: `none` models `undefined`. -/
def propsGet (props : List (String × List PropVal)) (key : String) : Option (List PropVal) :=
  props.lookup key

/-- The caption cache (a JS `Map` used only via `get`/`has`/`set`),
modelled extensionally. -/
def CapMap := String → Option String

/-- The empty caption cache. -/
def emptyCapMap : CapMap := fun _ => none

/-- `Map.set`: overwrites any existing caption for the key. -/
def mapSet (m : CapMap) (k v : String) : CapMap :=
  fun k' => if k' = k then some v else m k'

/-! ### Reference extractors -/

/-- `extractEntityId`: a bare string is returned as is; an object with a
truthy `id` yields that id; everything else yields `null`. -/
def extractEntityId : PropVal → Option String
  | .pstr s => some s
  | .pobj id _ _ _ => if id ≠ "" then some id else none
  | .pbad => none

/-- `propertyContainsId`: `undefined` value lists contain nothing; a bare
string matches by `===`; an object matches when its `id` is truthy and
equals the entity id; other values never match. -/
def propertyContainsId (values : Option (List PropVal)) (entityId : String) : Bool :=
  match values with
  | none => false
  | some vs => vs.any fun v =>
      match v with
      | .pstr s => s = entityId
      | .pobj id _ _ _ => id ≠ "" && id = entityId
      | .pbad => false

/-- `extractFirstTarget`: inspects only the head of the value list; a bare
string head is returned; an object head with truthy `id` is returned, and
its caption (when truthy) is recorded in the caption cache; every other
case yields `null` with the cache unchanged. -/
def extractFirstTarget (values : Option (List PropVal)) (captionMap : CapMap) :
    Option String × CapMap :=
  match values with
  | none => (none, captionMap)
  | some [] => (none, captionMap)
  | some (first :: _) =>
    match first with
    | .pstr s => (some s, captionMap)
    | .pobj id caption _ _ =>
      if id ≠ "" then
        (some id, if caption ≠ "" then mapSet captionMap id caption else captionMap)
      else (none, captionMap)
    | .pbad => (none, captionMap)

/-- View an embedded object as a record (`v as OpenSanctionsEntity`); only
its `id`, `caption`, `schema` and property bag are ever read downstream. -/
def pobjAsEntity (id caption schema : String)
    (properties : List (String × List PropVal)) : Entity :=
  ⟨id, caption, schema, properties, []⟩

/-- `extractNestedEntities`: every value of every property that is an
object with truthy `id` and truthy `schema`, in property order then value
order. -/
def extractNestedEntities (e : Entity) : List Entity :=
  e.properties.foldl
    (fun acc kv =>
      acc ++ kv.2.filterMap fun v =>
        match v with
        | .pobj id caption schema props =>
          if id ≠ "" && schema ≠ "" then some (pobjAsEntity id caption schema props)
          else none
        | _ => none)
    []

/-! ### `fetchWithRelationships` pipeline stages -/

/-- Merge step: append each nested record whose `id` is not already among
the seen ids (initially the ids of the adjacency-list records). -/
def mergeAdjacent (adjacent nested : List Entity) : List Entity :=
  (nested.foldl
    (fun acc n =>
      if n.id ∈ acc.2 then acc else (acc.1 ++ [n], acc.2 ++ [n.id]))
    (adjacent, adjacent.map (·.id))).1

/-- `if (v && typeof v === 'object' && v.id && v.caption) captionMap.set(...)`:
one property value's contribution to caption seeding. -/
def captionWrite (m : CapMap) (v : PropVal) : CapMap :=
  match v with
  | .pobj id caption _ _ =>
    if id ≠ "" && caption ≠ "" then mapSet m id caption else m
  | _ => m

/-- One record's contribution to caption seeding: the record's own caption
(when its `caption` and `id` are both truthy), then every embedded object
with truthy `id` and truthy `caption` anywhere in its property bag. -/
def seedStep (m : CapMap) (adj : Entity) : CapMap :=
  let m1 := if adj.caption ≠ "" && adj.id ≠ "" then mapSet m adj.id adj.caption else m
  adj.properties.foldl (fun m kv => kv.2.foldl captionWrite m) m1

/-- Caption seeding: the anchor's own caption first (unconditionally), then
each merged record in order. -/
def seedCaptions (entityId entityCaption : String) (adjacent : List Entity) : CapMap :=
  adjacent.foldl seedStep (mapSet emptyCapMap entityId entityCaption)

/-- The eight relationship categories (`relationships` record keys). -/
inductive RelType where
  | directorOf | ownerOf | ownedBy | employeeOf
  | memberOf | relatedTo | family | coConspirator
deriving Repr, DecidableEq

/-- A first-pass classification result: category plus counterpart id. -/
structure RelEntry where
  type : RelType
  targetId : String
deriving Repr, DecidableEq

/-- Mutable state of the classification pass: the caption cache, the
insertion-ordered set of identifiers still needing caption resolution, and
the collected `(category, counterpartId)` entries. -/
structure ClassState where
  captionMap : CapMap
  unresolved : List String
  entries : List RelEntry

/-- `Set.add` on the unresolved-identifier set. -/
def addUnresolved (l : List String) (x : String) : List String :=
  if x ∈ l then l else l ++ [x]

/-- Record one classified entry, adding its counterpart to the unresolved
set when the (possibly just-updated) caption cache has no caption for it. -/
def pushEntry (st : ClassState) (m : CapMap) (t : RelType) (targetId : String) :
    ClassState :=
  { captionMap := m
    unresolved := if (m targetId).isNone then addUnresolved st.unresolved targetId
                  else st.unresolved
    entries := st.entries ++ [⟨t, targetId⟩] }

/-- Body of the one-directional `switch` cases (Directorship / Ownership /
Employment / Membership), once the anchor was found in the checked role:
extract the first counterpart from the other role's values and record an
entry of category `t` when one was found. -/
def handleOneDirection (st : ClassState) (t : RelType) (vals : Option (List PropVal)) :
    ClassState :=
  match extractFirstTarget vals st.captionMap with
  | (some o, m) =>
    -- `if (org)`: the returned id must be truthy (non-empty)
    if o ≠ "" then pushEntry st m t o else { st with captionMap := m }
  | (none, m) => { st with captionMap := m }

/-- Body of the symmetric Family / Associate cases: whichever of the two
role value lists contains the anchor picks the counterpart from the other
list; a counterpart equal to the anchor is dropped. -/
def handleSymmetric (entityId : String) (st : ClassState) (t : RelType)
    (aVals bVals : List PropVal) : ClassState :=
  match
    (if propertyContainsId (some aVals) entityId then
      extractFirstTarget (some bVals) st.captionMap
    else if propertyContainsId (some bVals) entityId then
      extractFirstTarget (some aVals) st.captionMap
    else (none, st.captionMap)) with
  | (some t', m) =>
    -- `if (targetId && targetId !== entityId)`: truthy and not the anchor
    if t' ≠ "" ∧ t' ≠ entityId then pushEntry st m t t'
    else { st with captionMap := m }
  | (none, m) => { st with captionMap := m }

/-- Body of the grouped UnknownLink / Succession / Representation case:
both first targets are extracted up front; whichever side equals the anchor
makes the other side the `relatedTo` counterpart. -/
def handleSubjectObject (entityId : String) (st : ClassState)
    (subjectVals objectVals : List PropVal) : ClassState :=
  match extractFirstTarget (some subjectVals) st.captionMap with
  | (subjectId, m1) =>
    match extractFirstTarget (some objectVals) m1 with
    | (objectId, m2) =>
      -- `if (subjectId === entityId && objectId)` / symmetric else-if;
      -- `objectId.getD "" ≠ ""` is JS truthiness of the nullable id
      if subjectId = some entityId ∧ objectId.getD "" ≠ "" then
        pushEntry st m2 .relatedTo (objectId.getD "")
      else if objectId = some entityId ∧ subjectId.getD "" ≠ "" then
        pushEntry st m2 .relatedTo (subjectId.getD "")
      else { st with captionMap := m2 }

/-- One iteration of the classification `switch` over a relationship
record, relative to anchor `entityId`. -/
def classifyStep (entityId : String) (st : ClassState) (rel : Entity) : ClassState :=
  if rel.schema = "Directorship" then
    if propertyContainsId (propsGet rel.properties "director") entityId then
      handleOneDirection st .directorOf (propsGet rel.properties "organization")
    else st
  else if rel.schema = "Ownership" then
    if propertyContainsId (propsGet rel.properties "owner") entityId then
      handleOneDirection st .ownerOf (propsGet rel.properties "asset")
    else if propertyContainsId (propsGet rel.properties "asset") entityId then
      handleOneDirection st .ownedBy (propsGet rel.properties "owner")
    else st
  else if rel.schema = "Employment" then
    if propertyContainsId (propsGet rel.properties "employee") entityId then
      handleOneDirection st .employeeOf (propsGet rel.properties "employer")
    else st
  else if rel.schema = "Membership" then
    if propertyContainsId (propsGet rel.properties "member") entityId then
      handleOneDirection st .memberOf (propsGet rel.properties "organization")
    else st
  else if rel.schema = "Family" then
    handleSymmetric entityId st .family
      ((propsGet rel.properties "person").getD [])
      ((propsGet rel.properties "relative").getD [])
  else if rel.schema = "Associate" then
    handleSymmetric entityId st .coConspirator
      ((propsGet rel.properties "person").getD [])
      ((propsGet rel.properties "associate").getD [])
  else if rel.schema = "UnknownLink" ∨ rel.schema = "Succession" ∨
          rel.schema = "Representation" then
    handleSubjectObject entityId st
      ((propsGet rel.properties "subject").getD [])
      ((propsGet rel.properties "object").getD [])
  else st

/-- The merged working set of relationship records. -/
def mergedRecords (entity : Entity) (adjacent0 : List Entity) : List Entity :=
  mergeAdjacent adjacent0 (extractNestedEntities entity)

/-- State after the whole first (classification) pass. -/
def classState (entityId : String) (entity : Entity) (adjacent0 : List Entity) :
    ClassState :=
  let adjacent := mergedRecords entity adjacent0
  adjacent.foldl (classifyStep entityId)
    ⟨seedCaptions entityId entity.caption adjacent, [], []⟩

/-- One iteration of the caption-resolution loop: a failed fetch (`none`)
is caught and contributes nothing; a fetched record with truthy caption is
recorded. -/
def resolveStep (fetch : String → Option Entity) (m : CapMap) (targetId : String) :
    CapMap :=
  match fetch targetId with
  | some e => if e.caption ≠ "" then mapSet m targetId e.caption else m
  | none => m

/-- Caption-resolution loop: one `getEntity` per unresolved identifier. -/
def resolveCaptions (fetch : String → Option Entity) (m : CapMap)
    (ids : List String) : CapMap :=
  ids.foldl (resolveStep fetch) m

/-- The caption cache as seen by the bucket-population pass. -/
def resolvedMap (entityId : String) (entity : Entity) (adjacent0 : List Entity)
    (fetch : String → Option Entity) : CapMap :=
  let st := classState entityId entity adjacent0
  resolveCaptions fetch st.captionMap st.unresolved

/-- The Category Bucket Set (`relationships` record). -/
structure Relationships where
  directorOf : List String
  ownerOf : List String
  ownedBy : List String
  employeeOf : List String
  memberOf : List String
  relatedTo : List String
  family : List String
  coConspirator : List String
deriving Repr, DecidableEq

/-- All-empty buckets. -/
def emptyRelationships : Relationships := ⟨[], [], [], [], [], [], [], []⟩

/-- Bucket lookup `relationships[entry.type]`. -/
def bGet (r : Relationships) : RelType → List String
  | .directorOf => r.directorOf
  | .ownerOf => r.ownerOf
  | .ownedBy => r.ownedBy
  | .employeeOf => r.employeeOf
  | .memberOf => r.memberOf
  | .relatedTo => r.relatedTo
  | .family => r.family
  | .coConspirator => r.coConspirator

/-- Bucket update. -/
def bSet (r : Relationships) : RelType → List String → Relationships
  | .directorOf, l => { r with directorOf := l }
  | .ownerOf, l => { r with ownerOf := l }
  | .ownedBy, l => { r with ownedBy := l }
  | .employeeOf, l => { r with employeeOf := l }
  | .memberOf, l => { r with memberOf := l }
  | .relatedTo, l => { r with relatedTo := l }
  | .family, l => { r with family := l }
  | .coConspirator, l => { r with coConspirator := l }

/-- `captionMap.get(entry.targetId) || entry.targetId`: a missing or falsy
(empty) caption falls back to the raw identifier. -/
def display (m : CapMap) (targetId : String) : String :=
  match m targetId with
  | some c => if c = "" then targetId else c
  | none => targetId

/-- One step of the bucket-population pass: append the display name to the
entry's bucket unless already present (case-sensitive exact match). -/
def bucketStep (m : CapMap) (rels : Relationships) (e : RelEntry) : Relationships :=
  let displayName := display m e.targetId
  let arr := bGet rels e.type
  if displayName ∈ arr then rels else bSet rels e.type (arr ++ [displayName])

/-- Second pass: fold all entries into the Category Bucket Set. -/
def secondPass (m : CapMap) (entries : List RelEntry) : Relationships :=
  entries.foldl (bucketStep m) emptyRelationships

/-- The enriched entity: every field of the fetched record plus the
Category Bucket Set (`{ ...entity, relationships }`). -/
structure EnrichedEntity where
  id : String
  caption : String
  schema : String
  properties : List (String × List PropVal)
  datasets : List String
  relationships : Relationships
deriving Repr

/-- `fetchWithRelationships`, as a function of the anchor id, the fetched
primary record, the adjacency-endpoint result, and the follow-up fetch
oracle. -/
def fetchWithRelationships (entityId : String) (entity : Entity)
    (adjacent0 : List Entity) (fetch : String → Option Entity) : EnrichedEntity :=
  let st := classState entityId entity adjacent0
  let m1 := resolveCaptions fetch st.captionMap st.unresolved
  { id := entity.id
    caption := entity.caption
    schema := entity.schema
    properties := entity.properties
    datasets := entity.datasets
    relationships := secondPass m1 st.entries }

/-! ### Specification-side definitions used to state the claims -/

/-- Replay a sequence of `(key, value)` cache writes in order. -/
def applyWrites (m : CapMap) (ws : List (String × String)) : CapMap :=
  ws.foldl (fun m kv => mapSet m kv.1 kv.2) m

/-- The caption writes contributed by one value list during seeding:
every embedded object with truthy `id` and `caption`, in order. -/
def pobjWrites (vs : List PropVal) : List (String × String) :=
  vs.filterMap fun v =>
    match v with
    | .pobj id cap _ _ => if id ≠ "" && cap ≠ "" then some (id, cap) else none
    | _ => none

/-- The caption writes contributed by one merged record during seeding. -/
def seedStepWrites (adj : Entity) : List (String × String) :=
  (if adj.caption ≠ "" && adj.id ≠ "" then [(adj.id, adj.caption)] else []) ++
    adj.properties.flatMap fun kv => pobjWrites kv.2

/-- All caption-seeding writes of one operation, in execution order. -/
def seedWrites (entityId entityCaption : String) (adjacent : List Entity) :
    List (String × String) :=
  (entityId, entityCaption) :: adjacent.flatMap seedStepWrites

/-- An embedded object with this `id` and `caption` occurs somewhere in the
record's property bag. -/
def PobjCaptionIn (rel : Entity) (id cap : String) : Prop :=
  ∃ kv, kv ∈ rel.properties ∧ ∃ sch props, PropVal.pobj id cap sch props ∈ kv.2

/-- Append-only first-occurrence deduplication (the spec's description of a
bucket: unique display names in first-seen order). -/
def dedupAppend (acc names : List String) : List String :=
  names.foldl (fun a d => if d ∈ a then a else a ++ [d]) acc

/-- The stream of display names destined for category `c`, in entry order. -/
def bucketNames (m : CapMap) (c : RelType) (entries : List RelEntry) : List String :=
  entries.filterMap fun e => if e.type = c then some (display m e.targetId) else none

/-- The spec's description of the grouped adjacency shape: the
concatenation of every group's `results` array (groups without an array
`results` contribute nothing). -/
def groupedConcat (groups : List JSVal) : List JSVal :=
  groups.flatMap fun g =>
    match g.optMember "results" with
    | .varr rs => rs
    | _ => []

/-! ### Concrete records used by counterexamples and witnesses -/

/-- Anchor entity `X` with caption `"Anchor"`. -/
def anchorX : Entity := ⟨"X", "Anchor", "Person", [], []⟩

/-- A Succession record whose subject and object both resolve to the
anchor `X` itself. -/
def succSelfLoop : Entity :=
  ⟨"r1", "", "Succession",
   [("subject", [PropVal.pstr "X"]), ("object", [PropVal.pstr "X"])], []⟩

/-- A Family record for anchor `X` with counterpart `Y` (bare strings). -/
def familyXY : Entity :=
  ⟨"f1", "", "Family",
   [("person", [PropVal.pstr "X"]), ("relative", [PropVal.pstr "Y"])], []⟩

/-- A record (unclassifiable schema) embedding a caption `"First"` for
entity `Z`. -/
def seedFirstRec : Entity :=
  ⟨"s1", "", "Dummy", [("p", [PropVal.pobj "Z" "First" "" []])], []⟩

/-- A later record embedding a conflicting caption `"Second"` for `Z`. -/
def seedSecondRec : Entity :=
  ⟨"s2", "", "Dummy", [("p", [PropVal.pobj "Z" "Second" "" []])], []⟩

/-- A Family record for anchor `X` whose counterpart is `Z` (bare string,
so the bucket shows whatever caption the cache holds for `Z`). -/
def familyXZ : Entity :=
  ⟨"f2", "", "Family",
   [("person", [PropVal.pstr "X"]), ("relative", [PropVal.pstr "Z"])], []⟩

/-- Adjacency record with id `R`, Family `X`–`Y`. -/
def dupAdjY : Entity :=
  ⟨"R", "", "Family",
   [("person", [PropVal.pstr "X"]), ("relative", [PropVal.pstr "Y"])], []⟩

/-- A second adjacency record with the same id `R`, Family `X`–`W`. -/
def dupAdjW : Entity :=
  ⟨"R", "", "Family",
   [("person", [PropVal.pstr "X"]), ("relative", [PropVal.pstr "W"])], []⟩

/-- An embedded record carrying the duplicated id `R`. -/
def dupNested : Entity := ⟨"R", "", "Family", [], []⟩

/-- A primary entity whose property bag embeds `dupNested` (truthy id and
schema), so it is recovered by `extractNestedEntities`. -/
def entityWithNestedR : Entity :=
  ⟨"X", "Anchor", "Person", [("links", [PropVal.pobj "R" "" "Family" []])], []⟩

/-- An Ownership record: owner `X`, asset `Y` captioned `"Acme Corp"`. -/
def ownershipXY : Entity :=
  ⟨"o1", "", "Ownership",
   [("owner", [PropVal.pstr "X"]), ("asset", [PropVal.pobj "Y" "Acme Corp" "" []])], []⟩

/-- Entries sending the same display name `"J"` to two different buckets. -/
def sharedNameEntries : List RelEntry :=
  [⟨.family, "J"⟩, ⟨.coConspirator, "J"⟩]

/-- A grouped `adjacent` field with one group holding one result. -/
def grpAdj : JSVal :=
  JSVal.vobj [("p1", JSVal.vobj [("results", JSVal.varr [JSVal.vstr "a"])])]

/-- An adjacency response in the grouped backend shape. -/
def grpResp : JSVal := JSVal.vobj [("adjacent", grpAdj)]

/-! ### General lemmas -/

lemma foldl_append_eq_flatMap {α β : Type} (g : α → List β) :
    ∀ (l : List α) (acc : List β),
      l.foldl (fun acc x => acc ++ g x) acc = acc ++ l.flatMap g := by
  intro l
  induction l with
  | nil => intro acc; simp
  | cons x l ih => intro acc; simp [ih]

lemma extractNestedEntities_eq (e : Entity) :
    extractNestedEntities e = e.properties.flatMap fun kv =>
      kv.2.filterMap fun v =>
        match v with
        | PropVal.pobj id caption schema props =>
          if id ≠ "" && schema ≠ "" then some (pobjAsEntity id caption schema props)
          else none
        | _ => none := by
  unfold extractNestedEntities
  rw [foldl_append_eq_flatMap]
  simp

lemma mergeFold_filter (i : String) :
    ∀ (nested acc : List Entity) (ids : List String), i ∈ ids →
      ((nested.foldl
        (fun acc n => if n.id ∈ acc.2 then acc else (acc.1 ++ [n], acc.2 ++ [n.id]))
        (acc, ids)).1).filter (fun e => e.id == i) =
        acc.filter (fun e => e.id == i) := by
  intro nested
  induction nested with
  | nil => intro acc ids _; rfl
  | cons n nested ih =>
    intro acc ids hi
    simp only [List.foldl_cons]
    by_cases hn : n.id ∈ ids
    · rw [if_pos hn]
      exact ih acc ids hi
    · rw [if_neg hn]
      rw [ih (acc ++ [n]) (ids ++ [n.id]) (List.mem_append_left _ hi)]
      rw [List.filter_append]
      have hne : (n.id == i) = false := by
        exact beq_eq_false_iff_ne.mpr fun h => hn (h ▸ hi)
      simp [List.filter, hne]

lemma group_fold_eq :
    ∀ (groups acc : List JSVal),
      groups.foldl (fun acc propResults =>
        match propResults.optMember "results" with
        | .varr results => acc ++ results
        | _ => acc) acc = acc ++ groupedConcat groups := by
  intro groups
  induction groups with
  | nil => intro acc; simp [groupedConcat]
  | cons g groups ih =>
    intro acc
    simp only [List.foldl_cons, groupedConcat, List.flatMap_cons]
    cases hg : g.optMember "results" with
    | varr elems => simp only [hg]; rw [ih]; simp [groupedConcat, List.append_assoc]
    | vstr s => simp only [hg]; rw [ih]; simp [groupedConcat]
    | vnum n => simp only [hg]; rw [ih]; simp [groupedConcat]
    | vbool b => simp only [hg]; rw [ih]; simp [groupedConcat]
    | vnull => simp only [hg]; rw [ih]; simp [groupedConcat]
    | vundefined => simp only [hg]; rw [ih]; simp [groupedConcat]
    | vobj fields => simp only [hg]; rw [ih]; simp [groupedConcat]

lemma adjacentFromResponse_grouped {resp a : JSVal}
    (h : resp.member "adjacent" = Except.ok a)
    (ht : (a.truthy && a.isObjectType) = true) :
    adjacentFromResponse resp = Except.ok (JSVal.varr (groupedConcat a.objValues)) := by
  unfold adjacentFromResponse
  rw [h]
  simp only [Bind.bind, Except.bind, ht, if_true]
  rw [group_fold_eq]
  rfl

lemma adjacentFromResponse_fallback {resp a r : JSVal}
    (h : resp.member "adjacent" = Except.ok a)
    (ht : (a.truthy && a.isObjectType) = false)
    (ha : resp.isArray = false)
    (hr : resp.member "results" = Except.ok r) :
    adjacentFromResponse resp =
      Except.ok (if r.truthy then r else JSVal.varr []) := by
  unfold adjacentFromResponse
  rw [h]
  simp only [Bind.bind, Except.bind, ht, ha, hr, Bool.false_eq_true, if_false]
  rfl

lemma handleOneDirection_entries_shape (st : ClassState) (t : RelType)
    (vals : Option (List PropVal)) :
    (handleOneDirection st t vals).entries = st.entries ∨
    ∃ o, (handleOneDirection st t vals).entries = st.entries ++ [⟨t, o⟩] := by
  unfold handleOneDirection
  rcases hE : extractFirstTarget vals st.captionMap with ⟨o, m⟩
  cases o with
  | none => left; rfl
  | some o' =>
    by_cases ho : o' ≠ ""
    · right; exact ⟨o', by simp [ho, pushEntry]⟩
    · left; simp [ho]

lemma handleSymmetric_entries_shape (entityId : String) (st : ClassState) (t : RelType)
    (aVals bVals : List PropVal) :
    (handleSymmetric entityId st t aVals bVals).entries = st.entries ∨
    ∃ o, o ≠ entityId ∧
      (handleSymmetric entityId st t aVals bVals).entries = st.entries ++ [⟨t, o⟩] := by
  unfold handleSymmetric
  rcases hE : (if propertyContainsId (some aVals) entityId then
      extractFirstTarget (some bVals) st.captionMap
    else if propertyContainsId (some bVals) entityId then
      extractFirstTarget (some aVals) st.captionMap
    else (none, st.captionMap)) with ⟨o, m⟩
  cases o with
  | none => left; rfl
  | some t' =>
    by_cases hc : t' ≠ "" ∧ t' ≠ entityId
    · right; exact ⟨t', hc.2, by simp [hc, pushEntry]⟩
    · left; simp [hc]

lemma handleSubjectObject_entries_shape (entityId : String) (st : ClassState)
    (subjectVals objectVals : List PropVal) :
    (handleSubjectObject entityId st subjectVals objectVals).entries = st.entries ∨
    ∃ o, (handleSubjectObject entityId st subjectVals objectVals).entries =
      st.entries ++ [⟨.relatedTo, o⟩] := by
  unfold handleSubjectObject
  rcases h1 : extractFirstTarget (some subjectVals) st.captionMap with ⟨subjectId, m1⟩
  rcases h2 : extractFirstTarget (some objectVals) m1 with ⟨objectId, m2⟩
  by_cases hc1 : subjectId = some entityId ∧ objectId.getD "" ≠ ""
  · right; exact ⟨objectId.getD "", by simp [h2, hc1, pushEntry]⟩
  · by_cases hc2 : objectId = some entityId ∧ subjectId.getD "" ≠ ""
    · right
      refine ⟨subjectId.getD "", ?_⟩
      have hno : ¬(subjectId = some entityId ∧ ¬entityId = "") := fun hx =>
        hc1 ⟨hx.1, by rw [hc2.1]; simpa using hx.2⟩
      simp [h2, hc2, hno, pushEntry]
    · left; simp [h2, hc1, hc2]

lemma classifyStep_entries_shape (entityId : String) (st : ClassState) (rel : Entity) :
    (classifyStep entityId st rel).entries = st.entries ∨
    ∃ t o, (classifyStep entityId st rel).entries = st.entries ++ [⟨t, o⟩] ∧
      ((t = RelType.family ∨ t = RelType.coConspirator) → o ≠ entityId) := by
  unfold classifyStep
  split_ifs
  case _ =>
    rcases handleOneDirection_entries_shape st .directorOf
      (propsGet rel.properties "organization") with h | ⟨o, h⟩
    · left; exact h
    · right; exact ⟨_, o, h, by rintro (h' | h') <;> exact RelType.noConfusion h'⟩
  case _ => left; rfl
  case _ =>
    rcases handleOneDirection_entries_shape st .ownerOf
      (propsGet rel.properties "asset") with h | ⟨o, h⟩
    · left; exact h
    · right; exact ⟨_, o, h, by rintro (h' | h') <;> exact RelType.noConfusion h'⟩
  case _ =>
    rcases handleOneDirection_entries_shape st .ownedBy
      (propsGet rel.properties "owner") with h | ⟨o, h⟩
    · left; exact h
    · right; exact ⟨_, o, h, by rintro (h' | h') <;> exact RelType.noConfusion h'⟩
  case _ => left; rfl
  case _ =>
    rcases handleOneDirection_entries_shape st .employeeOf
      (propsGet rel.properties "employer") with h | ⟨o, h⟩
    · left; exact h
    · right; exact ⟨_, o, h, by rintro (h' | h') <;> exact RelType.noConfusion h'⟩
  case _ => left; rfl
  case _ =>
    rcases handleOneDirection_entries_shape st .memberOf
      (propsGet rel.properties "organization") with h | ⟨o, h⟩
    · left; exact h
    · right; exact ⟨_, o, h, by rintro (h' | h') <;> exact RelType.noConfusion h'⟩
  case _ => left; rfl
  case _ =>
    rcases handleSymmetric_entries_shape entityId st .family
      ((propsGet rel.properties "person").getD [])
      ((propsGet rel.properties "relative").getD []) with h | ⟨o, ho, h⟩
    · left; exact h
    · right; exact ⟨_, o, h, fun _ => ho⟩
  case _ =>
    rcases handleSymmetric_entries_shape entityId st .coConspirator
      ((propsGet rel.properties "person").getD [])
      ((propsGet rel.properties "associate").getD []) with h | ⟨o, ho, h⟩
    · left; exact h
    · right; exact ⟨_, o, h, fun _ => ho⟩
  case _ =>
    rcases handleSubjectObject_entries_shape entityId st
      ((propsGet rel.properties "subject").getD [])
      ((propsGet rel.properties "object").getD []) with h | ⟨o, h⟩
    · left; exact h
    · right; exact ⟨_, o, h, by rintro (h' | h') <;> exact RelType.noConfusion h'⟩
  case _ => left; rfl

lemma foldl_classify_self_loop (entityId : String) :
    ∀ (l : List Entity) (st : ClassState),
      (∀ e ∈ st.entries,
        (e.type = RelType.family ∨ e.type = RelType.coConspirator) →
        e.targetId ≠ entityId) →
      ∀ e ∈ (l.foldl (classifyStep entityId) st).entries,
        (e.type = RelType.family ∨ e.type = RelType.coConspirator) →
        e.targetId ≠ entityId := by
  intro l
  induction l with
  | nil => intro st h; exact h
  | cons rel l ih =>
    intro st h
    simp only [List.foldl_cons]
    refine ih (classifyStep entityId st rel) ?_
    intro e he ht
    rcases classifyStep_entries_shape entityId st rel with hs | ⟨t, o, hs, himp⟩
    · exact h e (hs ▸ he) ht
    · rw [hs] at he
      rcases List.mem_append.mp he with he' | he'
      · exact h e he' ht
      · rcases List.mem_singleton.mp he' with rfl
        exact himp ht

lemma lookup_append_or (l1 l2 : List (String × String)) (k : String) :
    (l1 ++ l2).lookup k = ((l1.lookup k).or (l2.lookup k)) := by
  induction l1 with
  | nil => rfl
  | cons kv l1 ih =>
    rcases kv with ⟨k1, v1⟩
    simp only [List.cons_append, List.lookup_cons]
    cases hbe : k == k1 with
    | true => rfl
    | false => simpa using ih

lemma applyWrites_lookup :
    ∀ (ws : List (String × String)) (m : CapMap) (k : String),
      applyWrites m ws k = (ws.reverse.lookup k).or (m k) := by
  intro ws
  induction ws with
  | nil => intro m k; rfl
  | cons kv ws ih =>
    intro m k
    rcases kv with ⟨k1, v1⟩
    show applyWrites (mapSet m k1 v1) ws k = _
    rw [ih, List.reverse_cons, lookup_append_or, Option.or_assoc]
    congr 1
    unfold mapSet
    by_cases h : k = k1
    · subst h; simp [List.lookup_cons]
    · have hbe : (k == k1) = false := beq_eq_false_iff_ne.mpr h
      simp [List.lookup_cons, hbe, h]

lemma applyWrites_append (m : CapMap) (ws1 ws2 : List (String × String)) :
    applyWrites m (ws1 ++ ws2) = applyWrites (applyWrites m ws1) ws2 :=
  List.foldl_append _ _ _ _

lemma captionWrite_fold_eq (vs : List PropVal) :
    ∀ m : CapMap, vs.foldl captionWrite m = applyWrites m (pobjWrites vs) := by
  induction vs with
  | nil => intro m; rfl
  | cons v vs ih =>
    intro m
    cases v with
    | pstr s => simpa [pobjWrites, captionWrite] using ih m
    | pbad => simpa [pobjWrites, captionWrite] using ih m
    | pobj id cap sch props =>
      by_cases h : (id ≠ "" && cap ≠ "") = true
      · simp only [List.foldl_cons, captionWrite, h, if_true, pobjWrites,
          List.filterMap_cons]
        rw [ih]
        rfl
      · simp only [List.foldl_cons, captionWrite, h, if_false, pobjWrites,
          List.filterMap_cons]
        rw [ih]
        simp only [Bool.false_eq_true, if_false]
        rfl

lemma props_fold_eq (props : List (String × List PropVal)) :
    ∀ m : CapMap, props.foldl (fun m kv => kv.2.foldl captionWrite m) m =
      applyWrites m (props.flatMap fun kv => pobjWrites kv.2) := by
  induction props with
  | nil => intro m; rfl
  | cons kv props ih =>
    intro m
    simp only [List.foldl_cons, List.flatMap_cons]
    rw [ih, captionWrite_fold_eq, applyWrites_append]

lemma seedStep_eq_applyWrites (adj : Entity) (m : CapMap) :
    seedStep m adj = applyWrites m (seedStepWrites adj) := by
  unfold seedStep seedStepWrites
  rw [applyWrites_append]
  have hpre : (if adj.caption ≠ "" && adj.id ≠ "" then mapSet m adj.id adj.caption
      else m) =
      applyWrites m
        (if adj.caption ≠ "" && adj.id ≠ "" then [(adj.id, adj.caption)] else []) := by
    split <;> rfl
  rw [← hpre, props_fold_eq]

lemma foldl_seedStep_eq (adjacent : List Entity) :
    ∀ m : CapMap, adjacent.foldl seedStep m =
      applyWrites m (adjacent.flatMap seedStepWrites) := by
  induction adjacent with
  | nil => intro m; rfl
  | cons adj adjacent ih =>
    intro m
    simp only [List.foldl_cons, List.flatMap_cons]
    rw [ih, seedStep_eq_applyWrites, applyWrites_append]

lemma seedCaptions_eq_applyWrites (entityId cap : String) (adjacent : List Entity) :
    seedCaptions entityId cap adjacent =
      applyWrites emptyCapMap (seedWrites entityId cap adjacent) := by
  unfold seedCaptions seedWrites
  rw [foldl_seedStep_eq]
  rfl

lemma handleOneDirection_entries_some {st : ClassState} {t : RelType}
    {vals : Option (List PropVal)} {o : String}
    (h : (extractFirstTarget vals st.captionMap).1 = some o) (ho : o ≠ "") :
    (handleOneDirection st t vals).entries = st.entries ++ [⟨t, o⟩] := by
  unfold handleOneDirection
  rcases hE : extractFirstTarget vals st.captionMap with ⟨o', m⟩
  rw [hE] at h
  simp only [Prod.fst] at h
  subst h
  simp [ho, pushEntry]

lemma bGet_bSet_same (r : Relationships) (t : RelType) (l : List String) :
    bGet (bSet r t l) t = l := by
  cases t <;> rfl

lemma bGet_bSet_ne (r : Relationships) {t t' : RelType} (h : t ≠ t') (l : List String) :
    bGet (bSet r t l) t' = bGet r t' := by
  cases t <;> cases t' <;> first | rfl | exact absurd rfl h

lemma bGet_emptyRelationships (c : RelType) : bGet emptyRelationships c = [] := by
  cases c <;> rfl

lemma bGet_bucketStep_fold (m : CapMap) (c : RelType) :
    ∀ (entries : List RelEntry) (rels : Relationships),
      bGet (entries.foldl (bucketStep m) rels) c =
        dedupAppend (bGet rels c) (bucketNames m c entries) := by
  intro entries
  induction entries with
  | nil => intro rels; rfl
  | cons e entries ih =>
    intro rels
    simp only [List.foldl_cons]
    rw [ih]
    by_cases he : e.type = c
    · subst he
      have hbn : bucketNames m e.type (e :: entries) =
          display m e.targetId :: bucketNames m e.type entries := by
        simp [bucketNames]
      rw [hbn]
      by_cases hdk : display m e.targetId ∈ bGet rels e.type
      · have hbs : bucketStep m rels e = rels := by
          simp [bucketStep, hdk]
        rw [hbs]
        simp [dedupAppend, hdk]
      · have hbs : bGet (bucketStep m rels e) e.type =
            bGet rels e.type ++ [display m e.targetId] := by
          simp [bucketStep, hdk, bGet_bSet_same]
        rw [hbs]
        simp [dedupAppend, hdk]
    · have hbn : bucketNames m c (e :: entries) = bucketNames m c entries := by
        simp [bucketNames, he]
      have hbs : bGet (bucketStep m rels e) c = bGet rels c := by
        by_cases hdk : display m e.targetId ∈ bGet rels e.type
        · simp [bucketStep, hdk]
        · simp [bucketStep, hdk, bGet_bSet_ne rels he]
      rw [hbn, hbs]

lemma dedupAppend_spec_aux (full : List String) :
    ∀ (names p acc : List String), full = p ++ names →
      (∀ a, a ∈ acc ↔ a ∈ p) → acc.Nodup →
      acc.Pairwise (fun a b => full.indexOf a < full.indexOf b) →
      ((∀ a, a ∈ dedupAppend acc names ↔ a ∈ full) ∧
       (dedupAppend acc names).Nodup ∧
       (dedupAppend acc names).Pairwise
         (fun a b => full.indexOf a < full.indexOf b)) := by
  intro names
  induction names with
  | nil =>
    intro p acc hfull hmem hnd hpw
    refine ⟨?_, hnd, hpw⟩
    intro a
    rw [hfull, List.append_nil]
    exact hmem a
  | cons d names ih =>
    intro p acc hfull hmem hnd hpw
    have hfull2 : full = (p ++ [d]) ++ names := by rw [hfull]; simp
    by_cases hd : d ∈ acc
    · have hstep : dedupAppend acc (d :: names) = dedupAppend acc names := by
        simp [dedupAppend, hd]
      have hmem2 : ∀ a, a ∈ acc ↔ a ∈ p ++ [d] := by
        intro a
        rw [List.mem_append, List.mem_singleton, hmem a]
        constructor
        · exact Or.inl
        · rintro (h | h2)
          · exact h
          · rw [h2]
            exact (hmem d).mp hd
      rw [hstep]
      exact ih (p ++ [d]) acc hfull2 hmem2 hnd hpw
    · have hstep : dedupAppend acc (d :: names) = dedupAppend (acc ++ [d]) names := by
        simp [dedupAppend, hd]
      have hdp : d ∉ p := fun h => hd ((hmem d).mpr h)
      have hmem2 : ∀ a, a ∈ acc ++ [d] ↔ a ∈ p ++ [d] := by
        intro a
        rw [List.mem_append, List.mem_append, List.mem_singleton, hmem a]
      have hnd2 : (acc ++ [d]).Nodup := by
        rw [List.nodup_append]
        refine ⟨hnd, List.nodup_singleton d, ?_⟩
        intro x hx hxd
        rw [List.mem_singleton] at hxd
        exact hd (hxd ▸ hx)
      have hpw2 : (acc ++ [d]).Pairwise
          (fun a b => full.indexOf a < full.indexOf b) := by
        rw [List.pairwise_append]
        refine ⟨hpw, List.pairwise_singleton _ _, ?_⟩
        intro a ha b hb
        rw [List.mem_singleton] at hb
        rw [hb]
        have hap : a ∈ p := (hmem a).mp ha
        have hidx_a : full.indexOf a = p.indexOf a := by
          rw [hfull, List.indexOf_append_of_mem hap]
        have hidx_d : full.indexOf d = p.length := by
          rw [hfull, List.indexOf_append_of_not_mem hdp, List.indexOf_cons_self,
            Nat.add_zero]
        rw [hidx_a, hidx_d]
        exact List.indexOf_lt_length.mpr hap
      rw [hstep]
      exact ih (p ++ [d]) (acc ++ [d]) hfull2 hmem2 hnd2 hpw2


lemma pushEntry_captionMap (st : ClassState) (m : CapMap) (t : RelType) (o : String) :
    (pushEntry st m t o).captionMap = m := rfl

lemma pushEntry_unresolved (st : ClassState) (m : CapMap) (t : RelType) (o : String) :
    (pushEntry st m t o).unresolved =
      if (m o).isNone then addUnresolved st.unresolved o else st.unresolved := rfl

lemma pushEntry_unresolved_char {st : ClassState} {m : CapMap} {t : RelType}
    {o tid : String} (h : tid ∈ (pushEntry st m t o).unresolved) (ho : o ≠ "") :
    tid ∈ st.unresolved ∨ ((pushEntry st m t o).captionMap tid = none ∧ tid ≠ "") := by
  rw [pushEntry_unresolved] at h
  by_cases hmo : (m o).isNone
  · rw [if_pos hmo] at h
    unfold addUnresolved at h
    by_cases hin : o ∈ st.unresolved
    · rw [if_pos hin] at h
      left; exact h
    · rw [if_neg hin] at h
      rcases List.mem_append.mp h with h' | h'
      · left; exact h'
      · right
        rw [List.mem_singleton] at h'
        rw [h', pushEntry_captionMap]
        exact ⟨Option.isNone_iff_eq_none.mp hmo, ho⟩
  · rw [if_neg hmo] at h
    left; exact h

lemma mapSet_isSome_mono {m : CapMap} {k : String} (a b : String)
    (h : (m k).isSome) : ((mapSet m a b) k).isSome := by
  unfold mapSet
  by_cases hk : k = a <;> simp [hk, h]

lemma extractFirstTarget_snd (values : Option (List PropVal)) (m : CapMap) :
    (extractFirstTarget values m).2 = m ∨
    ∃ id cap sch props rest,
      values = some (PropVal.pobj id cap sch props :: rest) ∧
      id ≠ "" ∧ cap ≠ "" ∧ (extractFirstTarget values m).2 = mapSet m id cap := by
  rcases values with _ | vs
  · exact Or.inl rfl
  rcases vs with _ | ⟨v, rest⟩
  · exact Or.inl rfl
  cases v with
  | pstr s => exact Or.inl rfl
  | pbad => exact Or.inl rfl
  | pobj id cap sch props =>
    by_cases hid : id ≠ ""
    · by_cases hcap : cap ≠ ""
      · right
        exact ⟨id, cap, sch, props, rest, rfl, hid, hcap,
          by simp [extractFirstTarget, hid, hcap]⟩
      · left
        simp [extractFirstTarget, hid, hcap]
    · left
      simp [extractFirstTarget, hid]

lemma extractFirstTarget_isSome_mono {values : Option (List PropVal)} {m : CapMap}
    {k : String} (h : (m k).isSome) :
    ((extractFirstTarget values m).2 k).isSome := by
  rcases extractFirstTarget_snd values m with he | ⟨id, cap, _, _, _, _, _, _, he⟩
  · rw [he]; exact h
  · rw [he]; exact mapSet_isSome_mono id cap h

lemma extractFirstTarget_snd_stable {values : Option (List PropVal)} {m : CapMap}
    {k : String}
    (h : ∀ cap sch props rest,
      values = some (PropVal.pobj k cap sch props :: rest) → cap = "") :
    (extractFirstTarget values m).2 k = m k := by
  rcases extractFirstTarget_snd values m with he |
    ⟨id, cap, sch, props, rest, hv, _, hcap, he⟩
  · rw [he]
  · rw [he]
    unfold mapSet
    by_cases hk : k = id
    · subst hk
      exact absurd (h cap sch props rest hv) hcap
    · simp [hk]

lemma propsGet_mem {props : List (String × List PropVal)} {key : String}
    {vs : List PropVal} (h : propsGet props key = some vs) : (key, vs) ∈ props := by
  induction props with
  | nil => exact absurd h (by simp [propsGet])
  | cons kv props ih =>
    rcases kv with ⟨k1, v1⟩
    cases hbe : (key == k1) with
    | true =>
      rw [propsGet, List.lookup_cons, hbe] at h
      have hk : key = k1 := by simpa using hbe
      have hv : v1 = vs := by simpa using h
      rw [hk, ← hv]
      exact List.mem_cons_self _ _
    | false =>
      rw [propsGet, List.lookup_cons, hbe] at h
      exact List.mem_cons_of_mem _ (ih h)

lemma extract_stable_propsGet {rel : Entity} {key : String} {m : CapMap} {k : String}
    (hno : ∀ c, c ≠ "" → ¬ PobjCaptionIn rel k c) :
    (extractFirstTarget (propsGet rel.properties key) m).2 k = m k := by
  apply extractFirstTarget_snd_stable
  intro cap sch props rest hv
  by_contra hcap
  exact hno cap hcap ⟨(key, PropVal.pobj k cap sch props :: rest), propsGet_mem hv,
    sch, props, List.mem_cons_self _ _⟩

lemma extract_stable_getD {rel : Entity} {key : String} {m : CapMap} {k : String}
    (hno : ∀ c, c ≠ "" → ¬ PobjCaptionIn rel k c) :
    (extractFirstTarget (some ((propsGet rel.properties key).getD [])) m).2 k = m k := by
  rcases hp : propsGet rel.properties key with _ | vs
  · rfl
  · apply extractFirstTarget_snd_stable
    intro cap sch props rest hv
    by_contra hcap
    have hvs : vs = PropVal.pobj k cap sch props :: rest := by simpa using hv
    refine hno cap hcap ⟨(key, vs), propsGet_mem hp, sch, props, ?_⟩
    rw [hvs]
    exact List.mem_cons_self _ _

lemma handleOneDirection_cases (st : ClassState) (t : RelType)
    (vals : Option (List PropVal)) :
    handleOneDirection st t vals =
      { st with captionMap := (extractFirstTarget vals st.captionMap).2 } ∨
    ∃ o, o ≠ "" ∧ handleOneDirection st t vals =
      pushEntry st (extractFirstTarget vals st.captionMap).2 t o := by
  unfold handleOneDirection
  rcases hE : extractFirstTarget vals st.captionMap with ⟨o, m⟩
  cases o with
  | none => left; rfl
  | some o' =>
    by_cases ho : o' ≠ ""
    · right; exact ⟨o', ho, by simp [ho]⟩
    · left; simp [ho]

lemma handleSymmetric_cases (entityId : String) (st : ClassState) (t : RelType)
    (aVals bVals : List PropVal) :
    ∃ m', (m' = st.captionMap ∨
           m' = (extractFirstTarget (some bVals) st.captionMap).2 ∨
           m' = (extractFirstTarget (some aVals) st.captionMap).2) ∧
      (handleSymmetric entityId st t aVals bVals = { st with captionMap := m' } ∨
       ∃ o, o ≠ "" ∧ o ≠ entityId ∧
         handleSymmetric entityId st t aVals bVals = pushEntry st m' t o) := by
  unfold handleSymmetric
  split_ifs with hA hB
  · rcases hE : extractFirstTarget (some bVals) st.captionMap with ⟨o, m⟩
    refine ⟨m, Or.inr (Or.inl rfl), ?_⟩
    cases o with
    | none => left; rfl
    | some t' =>
      by_cases hc : t' ≠ "" ∧ t' ≠ entityId
      · right; exact ⟨t', hc.1, hc.2, by simp [hc]⟩
      · left; simp [hc]
  · rcases hE : extractFirstTarget (some aVals) st.captionMap with ⟨o, m⟩
    refine ⟨m, Or.inr (Or.inr rfl), ?_⟩
    cases o with
    | none => left; rfl
    | some t' =>
      by_cases hc : t' ≠ "" ∧ t' ≠ entityId
      · right; exact ⟨t', hc.1, hc.2, by simp [hc]⟩
      · left; simp [hc]
  · exact ⟨st.captionMap, Or.inl rfl, Or.inl rfl⟩

lemma handleSubjectObject_cases (entityId : String) (st : ClassState)
    (subjectVals objectVals : List PropVal) :
    (handleSubjectObject entityId st subjectVals objectVals =
      { st with captionMap := (extractFirstTarget (some objectVals)
          (extractFirstTarget (some subjectVals) st.captionMap).2).2 }) ∨
    ∃ o, o ≠ "" ∧ handleSubjectObject entityId st subjectVals objectVals =
      pushEntry st (extractFirstTarget (some objectVals)
        (extractFirstTarget (some subjectVals) st.captionMap).2).2 .relatedTo o := by
  unfold handleSubjectObject
  rcases h1 : extractFirstTarget (some subjectVals) st.captionMap with ⟨subjectId, m1⟩
  rcases h2 : extractFirstTarget (some objectVals) m1 with ⟨objectId, m2⟩
  by_cases hc1 : subjectId = some entityId ∧ objectId.getD "" ≠ ""
  · right
    refine ⟨objectId.getD "", hc1.2, ?_⟩
    simp [h1, h2, hc1]
  · by_cases hc2 : objectId = some entityId ∧ subjectId.getD "" ≠ ""
    · right
      refine ⟨subjectId.getD "", hc2.2, ?_⟩
      have hno : ¬(subjectId = some entityId ∧ ¬entityId = "") := fun hx =>
        hc1 ⟨hx.1, by rw [hc2.1]; simpa using hx.2⟩
      simp [h1, h2, hc2, hno]
    · left
      simp [h1, h2, hc1, hc2]

lemma handleOneDirection_map_mono {st : ClassState} {t : RelType}
    {vals : Option (List PropVal)} {k : String} (h : (st.captionMap k).isSome) :
    ((handleOneDirection st t vals).captionMap k).isSome := by
  rcases handleOneDirection_cases st t vals with hc | ⟨o, ho, hc⟩ <;> rw [hc] <;>
    exact extractFirstTarget_isSome_mono h

lemma handleOneDirection_map_stable {st : ClassState} {t : RelType} {rel : Entity}
    {key k : String} (hno : ∀ c, c ≠ "" → ¬ PobjCaptionIn rel k c) :
    (handleOneDirection st t (propsGet rel.properties key)).captionMap k =
      st.captionMap k := by
  rcases handleOneDirection_cases st t (propsGet rel.properties key) with
    hc | ⟨o, ho, hc⟩ <;> rw [hc] <;> exact extract_stable_propsGet hno

lemma handleOneDirection_unresolved_char {st : ClassState} {t : RelType}
    {vals : Option (List PropVal)} {tid : String}
    (h : tid ∈ (handleOneDirection st t vals).unresolved) :
    tid ∈ st.unresolved ∨
      ((handleOneDirection st t vals).captionMap tid = none ∧ tid ≠ "") := by
  rcases handleOneDirection_cases st t vals with hc | ⟨o, ho, hc⟩
  · rw [hc] at h; left; exact h
  · rw [hc] at h ⊢
    exact pushEntry_unresolved_char h ho

lemma handleSymmetric_map_mono {entityId : String} {st : ClassState} {t : RelType}
    {aVals bVals : List PropVal} {k : String} (h : (st.captionMap k).isSome) :
    ((handleSymmetric entityId st t aVals bVals).captionMap k).isSome := by
  rcases handleSymmetric_cases entityId st t aVals bVals with ⟨m', hm', hc⟩
  have hm'k : (m' k).isSome := by
    rcases hm' with rfl | rfl | rfl
    · exact h
    · exact extractFirstTarget_isSome_mono h
    · exact extractFirstTarget_isSome_mono h
  rcases hc with hc | ⟨o, _, _, hc⟩ <;> rw [hc] <;> exact hm'k

lemma handleSymmetric_map_stable {entityId : String} {st : ClassState} {t : RelType}
    {rel : Entity} {keyA keyB k : String}
    (hno : ∀ c, c ≠ "" → ¬ PobjCaptionIn rel k c) :
    (handleSymmetric entityId st t ((propsGet rel.properties keyA).getD [])
        ((propsGet rel.properties keyB).getD [])).captionMap k = st.captionMap k := by
  rcases handleSymmetric_cases entityId st t ((propsGet rel.properties keyA).getD [])
    ((propsGet rel.properties keyB).getD []) with ⟨m', hm', hc⟩
  have hm'k : m' k = st.captionMap k := by
    rcases hm' with rfl | rfl | rfl
    · rfl
    · exact extract_stable_getD hno
    · exact extract_stable_getD hno
  rcases hc with hc | ⟨o, _, _, hc⟩ <;> rw [hc] <;> exact hm'k

lemma handleSymmetric_unresolved_char {entityId : String} {st : ClassState}
    {t : RelType} {aVals bVals : List PropVal} {tid : String}
    (h : tid ∈ (handleSymmetric entityId st t aVals bVals).unresolved) :
    tid ∈ st.unresolved ∨
      ((handleSymmetric entityId st t aVals bVals).captionMap tid = none ∧
        tid ≠ "") := by
  rcases handleSymmetric_cases entityId st t aVals bVals with ⟨m', _, hc⟩
  rcases hc with hc | ⟨o, ho, _, hc⟩
  · rw [hc] at h; left; exact h
  · rw [hc] at h ⊢
    exact pushEntry_unresolved_char h ho

lemma handleSubjectObject_map_mono {entityId : String} {st : ClassState}
    {subjectVals objectVals : List PropVal} {k : String}
    (h : (st.captionMap k).isSome) :
    ((handleSubjectObject entityId st subjectVals objectVals).captionMap k).isSome := by
  rcases handleSubjectObject_cases entityId st subjectVals objectVals with
    hc | ⟨o, _, hc⟩ <;> rw [hc] <;>
    exact extractFirstTarget_isSome_mono (extractFirstTarget_isSome_mono h)

lemma handleSubjectObject_map_stable {entityId : String} {st : ClassState}
    {rel : Entity} {keyS keyO k : String}
    (hno : ∀ c, c ≠ "" → ¬ PobjCaptionIn rel k c) :
    (handleSubjectObject entityId st ((propsGet rel.properties keyS).getD [])
        ((propsGet rel.properties keyO).getD [])).captionMap k = st.captionMap k := by
  rcases handleSubjectObject_cases entityId st ((propsGet rel.properties keyS).getD [])
    ((propsGet rel.properties keyO).getD []) with hc | ⟨o, _, hc⟩ <;> rw [hc] <;>
    exact (extract_stable_getD hno).trans (extract_stable_getD hno)

lemma handleSubjectObject_unresolved_char {entityId : String} {st : ClassState}
    {subjectVals objectVals : List PropVal} {tid : String}
    (h : tid ∈ (handleSubjectObject entityId st subjectVals objectVals).unresolved) :
    tid ∈ st.unresolved ∨
      ((handleSubjectObject entityId st subjectVals objectVals).captionMap tid = none ∧
        tid ≠ "") := by
  rcases handleSubjectObject_cases entityId st subjectVals objectVals with
    hc | ⟨o, ho, hc⟩
  · rw [hc] at h; left; exact h
  · rw [hc] at h ⊢
    exact pushEntry_unresolved_char h ho

lemma classifyStep_map_mono {entityId : String} {st : ClassState} {rel : Entity}
    {k : String} (h : (st.captionMap k).isSome) :
    ((classifyStep entityId st rel).captionMap k).isSome := by
  unfold classifyStep
  split_ifs <;>
    first
      | exact h
      | exact handleOneDirection_map_mono h
      | exact handleSymmetric_map_mono h
      | exact handleSubjectObject_map_mono h

lemma classifyStep_map_stable {entityId : String} {st : ClassState} {rel : Entity}
    {k : String} (hno : ∀ c, c ≠ "" → ¬ PobjCaptionIn rel k c) :
    (classifyStep entityId st rel).captionMap k = st.captionMap k := by
  unfold classifyStep
  split_ifs <;>
    first
      | rfl
      | exact handleOneDirection_map_stable hno
      | exact handleSymmetric_map_stable hno
      | exact handleSubjectObject_map_stable hno

lemma classifyStep_unresolved_char {entityId : String} {st : ClassState} {rel : Entity}
    {tid : String} (h : tid ∈ (classifyStep entityId st rel).unresolved) :
    tid ∈ st.unresolved ∨
      ((classifyStep entityId st rel).captionMap tid = none ∧ tid ≠ "") := by
  unfold classifyStep at h ⊢
  split_ifs at h ⊢ <;>
    first
      | exact Or.inl h
      | exact handleOneDirection_unresolved_char h
      | exact handleSymmetric_unresolved_char h
      | exact handleSubjectObject_unresolved_char h

lemma applyWrites_isSome_mono :
    ∀ (ws : List (String × String)) (m : CapMap) (k : String),
      (m k).isSome → ((applyWrites m ws) k).isSome := by
  intro ws
  induction ws with
  | nil => intro m k h; exact h
  | cons kv ws ih =>
    intro m k h
    exact ih _ k (mapSet_isSome_mono kv.1 kv.2 h)

lemma applyWrites_isSome_of_mem :
    ∀ (ws : List (String × String)) (m : CapMap) (k v : String),
      (k, v) ∈ ws → ((applyWrites m ws) k).isSome := by
  intro ws
  induction ws with
  | nil => intro m k v h; exact absurd h (List.not_mem_nil _)
  | cons kv ws ih =>
    intro m k v h
    rcases List.mem_cons.mp h with h' | h'
    · have hbase : ((mapSet m kv.1 kv.2) k).isSome := by
        rw [← h']
        unfold mapSet
        simp
      exact applyWrites_isSome_mono ws _ k hbase
    · exact ih _ k v h'

lemma seed_covers {entityId cap : String} {adjacent : List Entity} {rel : Entity}
    (hrel : rel ∈ adjacent) {k c : String} (hk : k ≠ "") (hc : c ≠ "")
    (hin : PobjCaptionIn rel k c) :
    ((seedCaptions entityId cap adjacent) k).isSome := by
  rw [seedCaptions_eq_applyWrites]
  rcases hin with ⟨kv, hkv, sch, props, hmem⟩
  have hw : (k, c) ∈ seedWrites entityId cap adjacent := by
    unfold seedWrites
    refine List.mem_cons_of_mem _ ?_
    rw [List.mem_flatMap]
    refine ⟨rel, hrel, ?_⟩
    unfold seedStepWrites
    rw [List.mem_append]
    right
    rw [List.mem_flatMap]
    refine ⟨kv, hkv, ?_⟩
    unfold pobjWrites
    rw [List.mem_filterMap]
    exact ⟨PropVal.pobj k c sch props, hmem, by simp [hk, hc]⟩
  exact applyWrites_isSome_of_mem _ _ _ _ hw

lemma resolveStep_ne {fetch : String → Option Entity} {m : CapMap} {a k : String}
    (h : k ≠ a) : (resolveStep fetch m a) k = m k := by
  unfold resolveStep
  cases fetch a with
  | none => rfl
  | some e =>
    by_cases hc : e.caption ≠ "" <;> simp [hc, mapSet, h]

lemma resolveCaptions_not_mem {fetch : String → Option Entity} {k : String} :
    ∀ (ids : List String) (m : CapMap), k ∉ ids →
      resolveCaptions fetch m ids k = m k := by
  intro ids
  induction ids with
  | nil => intro m _; rfl
  | cons a ids ih =>
    intro m h
    have hka : k ≠ a := fun he => h (he ▸ List.mem_cons_self a ids)
    have hrest : k ∉ ids := fun he => h (List.mem_cons_of_mem _ he)
    calc resolveCaptions fetch m (a :: ids) k
        = resolveCaptions fetch (resolveStep fetch m a) ids k := rfl
      _ = (resolveStep fetch m a) k := ih _ hrest
      _ = m k := resolveStep_ne hka

lemma resolveCaptions_failed {fetch : String → Option Entity} {k : String}
    (hf : fetch k = none) :
    ∀ (ids : List String) (m : CapMap), resolveCaptions fetch m ids k = m k := by
  intro ids
  induction ids with
  | nil => intro m; rfl
  | cons a ids ih =>
    intro m
    calc resolveCaptions fetch m (a :: ids) k
        = resolveCaptions fetch (resolveStep fetch m a) ids k := rfl
      _ = (resolveStep fetch m a) k := ih _
      _ = m k := by
          by_cases hka : k = a
          · subst hka
            unfold resolveStep
            rw [hf]
          · exact resolveStep_ne hka

lemma resolveCaptions_success {fetch : String → Option Entity} {k : String}
    {e : Entity} (he : fetch k = some e) (hc : e.caption ≠ "") :
    ∀ (ids : List String) (m : CapMap), k ∈ ids →
      resolveCaptions fetch m ids k = some e.caption := by
  intro ids
  induction ids with
  | nil => intro m h; exact absurd h (List.not_mem_nil _)
  | cons a ids ih =>
    intro m h
    by_cases hrest : k ∈ ids
    · exact ih _ hrest
    · have hka : k = a := by
        rcases List.mem_cons.mp h with h' | h'
        · exact h'
        · exact absurd h' hrest
      subst hka
      calc resolveCaptions fetch m (k :: ids) k
          = resolveCaptions fetch (resolveStep fetch m k) ids k := rfl
        _ = (resolveStep fetch m k) k := resolveCaptions_not_mem ids _ hrest
        _ = some e.caption := by
            unfold resolveStep
            rw [he]
            simp [hc, mapSet]

lemma classification_invariant (entityId : String) (m0 : CapMap) (all : List Entity)
    (hseed : ∀ rel ∈ all, ∀ k c, k ≠ "" → c ≠ "" → PobjCaptionIn rel k c →
      (m0 k).isSome) :
    ∀ (l : List Entity), (∀ r ∈ l, r ∈ all) → ∀ (st : ClassState),
      (∀ k, (m0 k).isSome → (st.captionMap k).isSome) →
      (∀ tid ∈ st.unresolved, st.captionMap tid = none ∧ tid ≠ "") →
      ((∀ k, (m0 k).isSome →
          ((l.foldl (classifyStep entityId) st).captionMap k).isSome) ∧
       (∀ tid ∈ (l.foldl (classifyStep entityId) st).unresolved,
          (l.foldl (classifyStep entityId) st).captionMap tid = none ∧ tid ≠ "")) := by
  intro l
  induction l with
  | nil => intro _ st h1 h2; exact ⟨h1, h2⟩
  | cons rel l ih =>
    intro hall st h1 h2
    simp only [List.foldl_cons]
    have hrel : rel ∈ all := hall rel (List.mem_cons_self _ _)
    refine ih (fun r hr => hall r (List.mem_cons_of_mem _ hr)) _ ?_ ?_
    · intro k hk
      exact classifyStep_map_mono (h1 k hk)
    · intro tid htid
      rcases classifyStep_unresolved_char htid with h' | h'
      · obtain ⟨hnone, hne⟩ := h2 tid h'
        have hno : ∀ c, c ≠ "" → ¬ PobjCaptionIn rel tid c := by
          intro c hc hin
          have hsome := h1 tid (hseed rel hrel tid c hne hc hin)
          rw [hnone] at hsome
          simp at hsome
        refine ⟨?_, hne⟩
        rw [classifyStep_map_stable hno]
        exact hnone
      · exact h'

/-! ### Claim theorems -/

/-- **C3, counterexample.** The claim says `extractFirstTarget` returns the
first resolvable identifier in the list, skipping unresolvable values.  On
the list `[<null-like value>, "Y"]` the second value is resolvable
(`extractEntityId` yields `"Y"`), yet `extractFirstTarget` returns `null`
because it inspects only the head. -/
theorem extract_first_target_ignores_later_values :
    (extractFirstTarget (some [PropVal.pbad, PropVal.pstr "Y"]) emptyCapMap).1 = none ∧
    extractEntityId (PropVal.pstr "Y") = some "Y" :=
  ⟨rfl, rfl⟩

/-- **C3, amended.** `extractFirstTarget` inspects only the head of the
value list: on an absent or empty list it returns `null`; otherwise its
returned identifier is exactly `extractEntityId` of the head (later values
are never consulted); the caption cache gains the head's embedded caption
exactly when the head is an object with truthy id and truthy caption, and
is unchanged in every other case. -/
theorem extract_first_target_head_only :
    (∀ m : CapMap, extractFirstTarget none m = (none, m)) ∧
    (∀ m : CapMap, extractFirstTarget (some []) m = (none, m)) ∧
    (∀ (m : CapMap) (v : PropVal) (rest : List PropVal),
      (extractFirstTarget (some (v :: rest)) m).1 = extractEntityId v) ∧
    (∀ (m : CapMap) (id cap sch : String) (props : List (String × List PropVal))
        (rest : List PropVal), id ≠ "" → cap ≠ "" →
      (extractFirstTarget (some (PropVal.pobj id cap sch props :: rest)) m).2 =
        mapSet m id cap) ∧
    (∀ (m : CapMap) (v : PropVal) (rest : List PropVal),
      (∀ id cap sch props, v = PropVal.pobj id cap sch props → id = "" ∨ cap = "") →
      (extractFirstTarget (some (v :: rest)) m).2 = m) := by
  refine ⟨fun _ => rfl, fun _ => rfl, ?_, ?_, ?_⟩
  · intro m v rest
    cases v with
    | pstr s => rfl
    | pobj id cap sch props =>
      simp only [extractFirstTarget, extractEntityId]
      split <;> rfl
    | pbad => rfl
  · intro m id cap sch props rest hid hcap
    simp [extractFirstTarget, hid, hcap]
  · intro m v rest h
    cases v with
    | pstr s => rfl
    | pobj id cap sch props =>
      rcases h id cap sch props rfl with h' | h'
      · simp [extractFirstTarget, h']
      · subst h'
        simp only [extractFirstTarget]
        split <;> simp
    | pbad => rfl

/-- **C3, witness.** The two hypothesis-bearing parts of
`extract_first_target_head_only`, applied at concrete inputs. -/
theorem extract_first_target_head_only_witness :
    (extractFirstTarget (some [PropVal.pobj "Y" "Cap" "" []]) emptyCapMap).2 =
      mapSet emptyCapMap "Y" "Cap" ∧
    (extractFirstTarget (some [PropVal.pbad, PropVal.pstr "Q"]) emptyCapMap).2 =
      emptyCapMap :=
  ⟨extract_first_target_head_only.2.2.2.1 emptyCapMap "Y" "Cap" "" [] []
      (by decide) (by decide),
   extract_first_target_head_only.2.2.2.2 emptyCapMap PropVal.pbad [PropVal.pstr "Q"]
      (fun _ _ _ _ h => PropVal.noConfusion h)⟩

/-- **C9.** The reference extractors are total functions (hence never
throw) with the stated behaviour: `extractEntityId` returns the value for
a bare string, the id for an object with truthy id, and `null` otherwise;
`extractFirstTarget` returns `null` on an absent or empty list;
`extractNestedEntities` collects exactly the embedded objects carrying
both a truthy identifier and a truthy schema tag. -/
theorem extractor_characterization :
    (∀ s, extractEntityId (PropVal.pstr s) = some s) ∧
    (∀ id cap sch props, id ≠ "" →
      extractEntityId (PropVal.pobj id cap sch props) = some id) ∧
    (∀ cap sch props, extractEntityId (PropVal.pobj "" cap sch props) = none) ∧
    (extractEntityId PropVal.pbad = none) ∧
    (∀ m : CapMap, extractFirstTarget none m = (none, m)) ∧
    (∀ m : CapMap, extractFirstTarget (some []) m = (none, m)) ∧
    (∀ (ent x : Entity), x ∈ extractNestedEntities ent ↔
      ∃ kv, kv ∈ ent.properties ∧ ∃ id cap sch props,
        PropVal.pobj id cap sch props ∈ kv.2 ∧ id ≠ "" ∧ sch ≠ "" ∧
        x = pobjAsEntity id cap sch props) := by
  refine ⟨fun _ => rfl, ?_, fun _ _ _ => rfl, rfl, fun _ => rfl, fun _ => rfl, ?_⟩
  · intro id cap sch props hid
    simp [extractEntityId, hid]
  · intro ent x
    rw [extractNestedEntities_eq, List.mem_flatMap]
    constructor
    · rintro ⟨kv, hkv, hx⟩
      rw [List.mem_filterMap] at hx
      rcases hx with ⟨v, hv, hfv⟩
      cases v with
      | pstr s => exact absurd hfv (by simp)
      | pbad => exact absurd hfv (by simp)
      | pobj id cap sch props =>
        by_cases hc : id ≠ "" && sch ≠ ""
        · simp only [hc, if_true] at hfv
          rcases Bool.and_eq_true_iff.mp hc with ⟨h1, h2⟩
          exact ⟨kv, hkv, id, cap, sch, props, hv,
            by simpa using h1, by simpa using h2, (Option.some.injEq _ _ ▸ hfv).symm⟩
        · simp only [hc, if_false] at hfv
          exact absurd hfv (by simp)
    · rintro ⟨kv, hkv, id, cap, sch, props, hv, hid, hsch, hx⟩
      refine ⟨kv, hkv, ?_⟩
      rw [List.mem_filterMap]
      exact ⟨PropVal.pobj id cap sch props, hv, by simp [hid, hsch, hx]⟩

/-- **C9, witness.** The hypothesis-bearing parts of
`extractor_characterization`, applied at concrete inputs. -/
theorem extractor_characterization_witness :
    extractEntityId (PropVal.pobj "E" "" "" []) = some "E" ∧
    pobjAsEntity "R" "" "Family" [] ∈ extractNestedEntities entityWithNestedR :=
  ⟨extractor_characterization.2.1 "E" "" "" [] (by decide),
   (extractor_characterization.2.2.2.2.2.2 entityWithNestedR
      (pobjAsEntity "R" "" "Family" [])).mpr
     ⟨("links", [PropVal.pobj "R" "" "Family" []]), List.mem_singleton.mpr rfl,
      "R", "", "Family", [], List.mem_singleton.mpr rfl, by decide, by decide, rfl⟩⟩

/-- **C10.** A successful `fetchWithRelationships` preserves every field of
the fetched primary record (identifier, caption, schema tag, property bag,
dataset tags); the only addition is the `relationships` field holding the
Category Bucket Set computed by the pipeline. -/
theorem enriched_entity_preserves_fields :
    ∀ (entityId : String) (entity : Entity) (adjacent0 : List Entity)
      (fetch : String → Option Entity),
      (fetchWithRelationships entityId entity adjacent0 fetch).id = entity.id ∧
      (fetchWithRelationships entityId entity adjacent0 fetch).caption = entity.caption ∧
      (fetchWithRelationships entityId entity adjacent0 fetch).schema = entity.schema ∧
      (fetchWithRelationships entityId entity adjacent0 fetch).properties =
        entity.properties ∧
      (fetchWithRelationships entityId entity adjacent0 fetch).datasets =
        entity.datasets ∧
      (fetchWithRelationships entityId entity adjacent0 fetch).relationships =
        secondPass (resolvedMap entityId entity adjacent0 fetch)
          (classState entityId entity adjacent0).entries :=
  fun _ _ _ _ => ⟨rfl, rfl, rfl, rfl, rfl, rfl⟩

/-- **C5, counterexample.** The claim says an identifier appearing both in
the adjacency list and among the embedded records is contained and
classified exactly once.  When the adjacency list itself holds the
identifier `R` twice (the grouped adjacency endpoint can list the same
record under two property groups), the merge drops only the embedded copy:
the merged working set holds `R` twice and classifies it twice. -/
theorem merge_keeps_adjacency_duplicates :
    "R" ∈ ([dupAdjY, dupAdjW] : List Entity).map (·.id) ∧
    "R" ∈ (extractNestedEntities entityWithNestedR).map (·.id) ∧
    (mergedRecords entityWithNestedR [dupAdjY, dupAdjW]).countP
      (fun e => e.id == "R") = 2 ∧
    (classState "X" entityWithNestedR [dupAdjY, dupAdjW]).entries =
      [⟨.family, "Y"⟩, ⟨.family, "W"⟩] :=
  ⟨by decide, by decide, by decide, by decide⟩

/-- **C5, amended.** Merge deduplication applies to the embedded copies
only: every embedded record whose identifier already occurs in the
adjacency list is dropped, so the merged working set's records with that
identifier are exactly the adjacency-list copies.  In particular, when the
adjacency list holds the identifier exactly once, the merged set contains
and classifies it exactly once and the kept copy is the adjacency-list
one; duplicates already inside the adjacency list are not collapsed. -/
theorem merge_dedup_embedded_copies (adjacent nested : List Entity) (i : String)
    (hi : i ∈ adjacent.map (·.id)) :
    (mergeAdjacent adjacent nested).filter (fun e => e.id == i) =
      adjacent.filter (fun e => e.id == i) := by
  unfold mergeAdjacent
  exact mergeFold_filter i nested adjacent (adjacent.map (·.id)) hi

/-- **C5, witness.** `merge_dedup_embedded_copies` at a concrete input:
the embedded copy of `R` is dropped and only the adjacency copy remains. -/
theorem merge_dedup_embedded_copies_witness :
    "R" ∈ ([dupAdjY] : List Entity).map (·.id) ∧
    (mergeAdjacent [dupAdjY] [dupNested]).filter (fun e => e.id == "R") =
      ([dupAdjY] : List Entity).filter (fun e => e.id == "R") :=
  ⟨by decide, merge_dedup_embedded_copies [dupAdjY] [dupNested] "R" (by decide)⟩

/-- **C8, counterexample.** The claim says any fetch failure or unexpected
response shape yields the empty sequence.  A response `{results: "hello"}`
is neither the grouped shape nor an array, yet `response.results || []`
passes the truthy non-array string straight through: `getAdjacent` returns
`"hello"`, not the empty sequence. -/
theorem get_adjacent_truthy_results_passthrough :
    getAdjacent (Except.ok (JSVal.vobj [("results", JSVal.vstr "hello")])) =
      JSVal.vstr "hello" ∧
    JSVal.vstr "hello" ≠ JSVal.varr [] :=
  ⟨rfl, fun h => JSVal.noConfusion h⟩

/-- **C8, amended.** `getAdjacent` never propagates an error: a failed
fetch, a response on which member access throws (e.g. `null`), or a
non-grouped non-array response without a truthy `results` member all yield
the empty sequence; the grouped backend shape yields the concatenation of
all groups' `results` arrays; a flat-array response is returned as is; and
a non-grouped non-array response with a truthy `results` member returns
that member's value even when it is not an array. -/
theorem get_adjacent_characterization :
    (getAdjacent (Except.error ()) = JSVal.varr []) ∧
    (∀ resp : JSVal, resp.member "adjacent" = Except.error () →
      getAdjacent (Except.ok resp) = JSVal.varr []) ∧
    (∀ resp a : JSVal, resp.member "adjacent" = Except.ok a →
      (a.truthy && a.isObjectType) = true →
      getAdjacent (Except.ok resp) = JSVal.varr (groupedConcat a.objValues)) ∧
    (∀ l : List JSVal, getAdjacent (Except.ok (JSVal.varr l)) = JSVal.varr l) ∧
    (∀ resp a r : JSVal, resp.member "adjacent" = Except.ok a →
      (a.truthy && a.isObjectType) = false → resp.isArray = false →
      resp.member "results" = Except.ok r → r.truthy = true →
      getAdjacent (Except.ok resp) = r) ∧
    (∀ resp a r : JSVal, resp.member "adjacent" = Except.ok a →
      (a.truthy && a.isObjectType) = false → resp.isArray = false →
      resp.member "results" = Except.ok r → r.truthy = false →
      getAdjacent (Except.ok resp) = JSVal.varr []) := by
  refine ⟨rfl, ?_, ?_, ?_, ?_, ?_⟩
  · intro resp h
    simp only [getAdjacent]
    have : adjacentFromResponse resp = Except.error () := by
      unfold adjacentFromResponse
      rw [h]
      rfl
    rw [this]
  · intro resp a h ht
    simp only [getAdjacent]
    rw [adjacentFromResponse_grouped h ht]
  · intro l
    rfl
  · intro resp a r h ht ha hr htr
    simp only [getAdjacent]
    rw [adjacentFromResponse_fallback h ht ha hr]
    simp [htr]
  · intro resp a r h ht ha hr htr
    simp only [getAdjacent]
    rw [adjacentFromResponse_fallback h ht ha hr]
    simp [htr]

/-- **C8, witness.** `get_adjacent_characterization` at concrete inputs:
a grouped response flattens to its results, and a response whose `results`
member is falsy yields the empty array. -/
theorem get_adjacent_characterization_witness :
    getAdjacent (Except.ok grpResp) = JSVal.varr (groupedConcat grpAdj.objValues) ∧
    getAdjacent (Except.ok (JSVal.vobj [("results", JSVal.vnum 0)])) =
      JSVal.varr [] :=
  ⟨get_adjacent_characterization.2.2.1 grpResp grpAdj rfl rfl,
   get_adjacent_characterization.2.2.2.2.2
     (JSVal.vobj [("results", JSVal.vnum 0)]) JSVal.vundefined (JSVal.vnum 0)
     rfl rfl rfl rfl rfl⟩

/-- **C1, counterexample.** A Succession record whose `subject` and
`object` both resolve first to the anchor `X` — so the anchor's own
identifier is the only resolvable counterpart — still produces a
`relatedTo` bucket entry (the anchor's own caption), because the
UnknownLink/Succession/Representation branch has no
`targetId !== entityId` guard. -/
theorem succession_self_loop_produces_entry :
    (fetchWithRelationships "X" anchorX [succSelfLoop]
      (fun _ => none)).relationships.relatedTo = ["Anchor"] ∧
    (fetchWithRelationships "X" anchorX [succSelfLoop]
      (fun _ => none)).relationships.relatedTo ≠ [] :=
  ⟨by decide, by decide⟩

/-- **C1, amended.** The self-loop exclusion holds for the Family and
Associate branches (which carry an explicit `targetId !== entityId`
guard): no classification entry of category family or associate ever has
the anchor itself as counterpart.  It does not extend to the
Succession/UnknownLink/Representation (related-to) family, where a record
whose subject and object both resolve first to the anchor produces a
self-loop entry (see the counterexample).  The directional types can also
produce self-referential entries structurally, but the claim's scope is
the symmetric types. -/
theorem family_associate_self_loop_excluded (entityId : String) (entity : Entity)
    (adjacent0 : List Entity) (e : RelEntry)
    (he : e ∈ (classState entityId entity adjacent0).entries)
    (ht : e.type = RelType.family ∨ e.type = RelType.coConspirator) :
    e.targetId ≠ entityId :=
  foldl_classify_self_loop entityId (mergedRecords entity adjacent0)
    ⟨seedCaptions entityId entity.caption (mergedRecords entity adjacent0), [], []⟩
    (by intro e' he' _; exact absurd he' (List.not_mem_nil e')) e he ht

/-- **C1, witness.** `family_associate_self_loop_excluded` applied to a
concrete Family record producing the entry `(family, "Y")`. -/
theorem family_associate_self_loop_excluded_witness :
    (⟨RelType.family, "Y"⟩ : RelEntry) ∈ (classState "X" anchorX [familyXY]).entries ∧
    ("Y" : String) ≠ "X" :=
  ⟨by decide,
   family_associate_self_loop_excluded "X" anchorX [familyXY] ⟨RelType.family, "Y"⟩
     (by decide) (Or.inl rfl)⟩

/-- **C2, counterexample.** The claim says the caption cache is
first-writer-wins within one operation.  Seeding the first record maps
entity `Z` to `"First"`; seeding a later record of the same operation
replaces it with `"Second"` (`Map.set` overwrites), and the operation's
final `family` bucket shows the later caption `"Second"`, not the first
one. -/
theorem caption_cache_overwrite_example :
    seedCaptions "X" "Anchor" [seedFirstRec] "Z" = some "First" ∧
    seedCaptions "X" "Anchor" [seedFirstRec, seedSecondRec] "Z" = some "Second" ∧
    (fetchWithRelationships "X" anchorX [seedFirstRec, seedSecondRec, familyXZ]
      (fun _ => none)).relationships.family = ["Second"] :=
  ⟨rfl, rfl, by decide⟩

/-- **C2, amended.** The caption cache is last-writer-wins: every write
replaces any earlier caption for the same identifier.  In particular,
after the seeding phase the cached caption of any identifier is exactly
the value of the **last** seeding write targeting it (the anchor's caption
written first, then each merged record's own caption and embedded captions
in order), and identifiers never written are unmapped. -/
theorem seed_captions_last_writer_wins (entityId entityCaption k : String)
    (adjacent : List Entity) :
    seedCaptions entityId entityCaption adjacent k =
      (seedWrites entityId entityCaption adjacent).reverse.lookup k := by
  rw [seedCaptions_eq_applyWrites, applyWrites_lookup]
  exact Option.or_none

/-- **C4.** Ownership classification checks the `owner` role first: anchor
in `owner` yields an `ownerOf` entry whose counterpart is the first
(truthy) asset identifier; anchor absent from `owner` but present in
`asset` yields an `ownedBy` entry with the first owner identifier; anchor
in neither role, or an unrecognized schema tag, contributes nothing. -/
theorem ownership_classification :
    (∀ (entityId : String) (st : ClassState) (rel : Entity), rel.schema = "Ownership" →
      (∀ t, t ≠ "" →
        propertyContainsId (propsGet rel.properties "owner") entityId = true →
        (extractFirstTarget (propsGet rel.properties "asset") st.captionMap).1 = some t →
        (classifyStep entityId st rel).entries = st.entries ++ [⟨.ownerOf, t⟩]) ∧
      (∀ t, t ≠ "" →
        propertyContainsId (propsGet rel.properties "owner") entityId = false →
        propertyContainsId (propsGet rel.properties "asset") entityId = true →
        (extractFirstTarget (propsGet rel.properties "owner") st.captionMap).1 = some t →
        (classifyStep entityId st rel).entries = st.entries ++ [⟨.ownedBy, t⟩]) ∧
      (propertyContainsId (propsGet rel.properties "owner") entityId = false →
        propertyContainsId (propsGet rel.properties "asset") entityId = false →
        classifyStep entityId st rel = st)) ∧
    (∀ (entityId : String) (st : ClassState) (rel : Entity),
      rel.schema ∉ (["Directorship", "Ownership", "Employment", "Membership", "Family",
        "Associate", "UnknownLink", "Succession", "Representation"] : List String) →
      classifyStep entityId st rel = st) := by
  constructor
  · intro entityId st rel hs
    refine ⟨?_, ?_, ?_⟩
    · intro t ht howner hasset
      unfold classifyStep
      rw [hs, if_neg (by decide), if_pos rfl, if_pos howner]
      exact handleOneDirection_entries_some hasset ht
    · intro t ht howner hasset hextract
      unfold classifyStep
      rw [hs, if_neg (by decide), if_pos rfl, if_neg (by simp [howner]),
        if_pos hasset]
      exact handleOneDirection_entries_some hextract ht
    · intro howner hasset
      unfold classifyStep
      rw [hs, if_neg (by decide), if_pos rfl, if_neg (by simp [howner]),
        if_neg (by simp [hasset])]
  · intro entityId st rel hs
    simp only [List.mem_cons, List.mem_singleton, not_or] at hs
    obtain ⟨h1, h2, h3, h4, h5, h6, h7, h8, h9⟩ := hs
    unfold classifyStep
    rw [if_neg h1, if_neg h2, if_neg h3, if_neg h4, if_neg h5, if_neg h6,
      if_neg (by rintro (h | h | h) <;> first | exact h7 h | exact h8 h | exact h9.1 h)]

/-- **C4, witness.** `ownership_classification` applied to a concrete
Ownership record (anchor `X` as owner, asset `Y`) and a concrete record
with an unrecognized schema tag. -/
theorem ownership_classification_witness :
    (classifyStep "X" ⟨emptyCapMap, [], []⟩ ownershipXY).entries =
      ([] : List RelEntry) ++ [⟨.ownerOf, "Y"⟩] ∧
    classifyStep "X" ⟨emptyCapMap, [], []⟩ seedFirstRec = ⟨emptyCapMap, [], []⟩ :=
  ⟨(ownership_classification.1 "X" ⟨emptyCapMap, [], []⟩ ownershipXY rfl).1 "Y"
      (by decide) (by decide) (by decide),
   ownership_classification.2 "X" ⟨emptyCapMap, [], []⟩ seedFirstRec (by decide)⟩

/-- **C6.** Every bucket of the Category Bucket Set is duplicate-free
(duplicate detection being exact string equality), contains exactly the
display names destined for its category, and lists them in first-seen
order (positions in the bucket are ordered by the first occurrence index
in the incoming display-name stream).  The same display name can still
appear in two different buckets, witnessed by two concrete entries sending
`"J"` to both `family` and `coConspirator`. -/
theorem bucket_dedup_first_seen :
    (∀ (m : CapMap) (entries : List RelEntry) (c : RelType),
      (bGet (secondPass m entries) c).Nodup ∧
      (∀ d, d ∈ bGet (secondPass m entries) c ↔ d ∈ bucketNames m c entries) ∧
      (bGet (secondPass m entries) c).Pairwise
        (fun a b => (bucketNames m c entries).indexOf a <
          (bucketNames m c entries).indexOf b)) ∧
    ((secondPass emptyCapMap sharedNameEntries).family = ["J"] ∧
     (secondPass emptyCapMap sharedNameEntries).coConspirator = ["J"]) := by
  constructor
  · intro m entries c
    have heq : bGet (secondPass m entries) c =
        dedupAppend [] (bucketNames m c entries) := by
      have h := bGet_bucketStep_fold m c entries emptyRelationships
      rwa [bGet_emptyRelationships] at h
    obtain ⟨hm, hnd, hpw⟩ := dedupAppend_spec_aux (bucketNames m c entries)
      (bucketNames m c entries) [] [] (by simp) (by simp) List.nodup_nil
      List.Pairwise.nil
    rw [heq]
    exact ⟨hnd, hm, hpw⟩
  · exact ⟨by decide, by decide⟩

/-- **C7.** Resolver fallback: every counterpart identifier that reached
the unresolved set has no cached caption when resolution starts (the
seeding pass already recorded every embedded caption a classification step
could have written), so when its follow-up fetch fails the resolved cache
still has no caption for it and the display name used by the bucket pass
is the raw identifier.  Failures are isolated per identifier: any other
unresolved identifier whose fetch succeeds with a truthy caption is
resolved to that caption regardless of failures elsewhere (the fetch
oracle is arbitrary, so failing and succeeding identifiers coexist). -/
theorem resolver_fallback_raw_id (entityId : String) (entity : Entity)
    (adjacent0 : List Entity) (fetch : String → Option Entity) :
    (∀ tid, tid ∈ (classState entityId entity adjacent0).unresolved →
      fetch tid = none →
      resolvedMap entityId entity adjacent0 fetch tid = none ∧
      display (resolvedMap entityId entity adjacent0 fetch) tid = tid) ∧
    (∀ tid e, tid ∈ (classState entityId entity adjacent0).unresolved →
      fetch tid = some e → e.caption ≠ "" →
      resolvedMap entityId entity adjacent0 fetch tid = some e.caption) := by
  have hinv := classification_invariant entityId
    (seedCaptions entityId entity.caption (mergedRecords entity adjacent0))
    (mergedRecords entity adjacent0)
    (fun rel hrel k c hk hc hin => seed_covers hrel hk hc hin)
    (mergedRecords entity adjacent0) (fun r hr => hr)
    ⟨seedCaptions entityId entity.caption (mergedRecords entity adjacent0), [], []⟩
    (fun _ hk => hk) (fun tid htid => absurd htid (List.not_mem_nil _))
  constructor
  · intro tid htid hf
    have hnone : (classState entityId entity adjacent0).captionMap tid = none :=
      (hinv.2 tid htid).1
    have hres : resolvedMap entityId entity adjacent0 fetch tid = none := by
      have hstable := resolveCaptions_failed hf
        (classState entityId entity adjacent0).unresolved
        (classState entityId entity adjacent0).captionMap
      exact hstable.trans hnone
    refine ⟨hres, ?_⟩
    unfold display
    rw [hres]
  · intro tid e htid he hc
    exact resolveCaptions_success he hc _ _ htid

/-- **C7, witness.** `resolver_fallback_raw_id` at a concrete pipeline:
anchor `X`, one Family record with bare-string counterpart `Z`; with an
always-failing fetch the display falls back to the raw id `"Z"`, and with
a fetch that succeeds for `Z` the caption `"Zed"` is resolved. -/
theorem resolver_fallback_raw_id_witness :
    "Z" ∈ (classState "X" anchorX [familyXZ]).unresolved ∧
    resolvedMap "X" anchorX [familyXZ] (fun _ => none) "Z" = none ∧
    display (resolvedMap "X" anchorX [familyXZ] (fun _ => none)) "Z" = "Z" ∧
    resolvedMap "X" anchorX [familyXZ]
      (fun i => if i = "Z" then some ⟨"Z", "Zed", "Person", [], []⟩ else none) "Z" =
      some "Zed" :=
  ⟨by decide,
   ((resolver_fallback_raw_id "X" anchorX [familyXZ] (fun _ => none)).1 "Z"
      (by decide) rfl).1,
   ((resolver_fallback_raw_id "X" anchorX [familyXZ] (fun _ => none)).1 "Z"
      (by decide) rfl).2,
   (resolver_fallback_raw_id "X" anchorX [familyXZ]
      (fun i => if i = "Z" then some ⟨"Z", "Zed", "Person", [], []⟩ else none)).2
     "Z" ⟨"Z", "Zed", "Person", [], []⟩ (by decide) (by simp) (by decide)⟩

end OSPlugin
